import Mathlib

set_option maxRecDepth 100000

/-!
Shallow embedding of the signal-archive core of `src/main.cpp`
(433SnifferSender): the stored-signal data model, deduplication,
automatic cleanup (eviction), insertion from the capture path,
age-based purge, the positional CRUD operations, and the
Preferences-backed persistence layer.

Machine integers are modelled as `Nat`; the one place where 32-bit
wraparound matters (the `millis() - maxAge` cutoff computation of the
`/api/cleanup/old` handler) performs the subtraction modulo `2^32`
explicitly.
-/

/-- Mirrors `struct RFSignal` (main.cpp lines 34-41). -/
structure RFSignal where
  name : String
  value : Nat
  bitLength : Nat
  protocol : Nat
  timestamp : Nat
  isFavorite : Bool
  deriving DecidableEq, Repr

/-- `const int MAX_SIGNALS = 1000;` (main.cpp line 45). -/
def MAX_SIGNALS : Nat := 1000

/-- `const int AUTO_CLEANUP_THRESHOLD = 950;` (main.cpp line 46). -/
def AUTO_CLEANUP_THRESHOLD : Nat := 950

/-- `int signalsToRemove = MAX_SIGNALS * 0.2;` (main.cpp line 226).
The double product `1000 * 0.2` is slightly above `200` (since `0.2`
rounds up in binary) and truncating to `int` yields exactly `200`. -/
def signalsToRemove : Nat := MAX_SIGNALS * 2 / 10

/-- The equality test of `isDuplicate` (main.cpp lines 204-206):
the `(value, bitLength, protocol)` triple. -/
def sameTriple (a b : RFSignal) : Bool :=
  a.value == b.value && a.bitLength == b.bitLength && a.protocol == b.protocol

/-- `bool isDuplicate(const RFSignal&)` (main.cpp lines 202-211):
linear scan for a stored signal with the same triple. -/
def isDuplicate (stored : List RFSignal) (c : RFSignal) : Bool :=
  stored.any fun s => sameTriple s c

/-- The strict comparator passed to `std::sort` in `performAutoCleanup`
(main.cpp lines 218-223). -/
def cleanupLT (a b : RFSignal) : Bool :=
  if a.isFavorite && !b.isFavorite then false
  else if !a.isFavorite && b.isFavorite then true
  else decide (a.timestamp < b.timestamp)

/-- The non-strict order induced by `cleanupLT`: element `a` may appear
before `b` in a `std::sort`-sorted sequence iff `¬ cleanupLT b a`. -/
def cleanupLE (a b : RFSignal) : Prop := cleanupLT b a = false

instance : DecidableRel cleanupLE :=
  fun a b => inferInstanceAs (Decidable (cleanupLT b a = false))

/-- The `std::sort` call of `performAutoCleanup` (main.cpp line 217),
modelled as a sort producing a `cleanupLE`-sorted permutation:
non-favorites first in ascending `timestamp` order, then favorites
in ascending `timestamp` order. -/
def sortSignals (l : List RFSignal) : List RFSignal :=
  List.insertionSort cleanupLE l

/-- The erase loop of `performAutoCleanup` (main.cpp lines 230-238):
walk the sequence removing non-favorites until the quota is exhausted. -/
def removeOldest : List RFSignal → Nat → List RFSignal
  | [], _ => []
  | s :: rest, 0 => s :: rest
  | s :: rest, n + 1 =>
    if s.isFavorite then s :: removeOldest rest (n + 1) else removeOldest rest n

/-- `void performAutoCleanup()` (main.cpp lines 213-245): sort by the
favorites-last/oldest-first comparator, then erase the first
`signalsToRemove` non-favorites. -/
def performAutoCleanup (stored : List RFSignal) : List RFSignal :=
  removeOldest (sortSignals stored) signalsToRemove

/-- Outcome of presenting a decoded signal to the storage logic of
`handleReceivedSignal` (main.cpp lines 148-165). -/
inductive InsertOutcome where
  | Stored (newSize : Nat)
  | Duplicate
  | StorageFull
  deriving DecidableEq, Repr

/-- The archive after the threshold-gated cleanup step of
`handleReceivedSignal` (main.cpp lines 150-152). -/
def insertAfterCleanup (stored : List RFSignal) : List RFSignal :=
  if stored.length ≥ AUTO_CLEANUP_THRESHOLD then performAutoCleanup stored else stored

/-- The storage branch of `handleReceivedSignal` (main.cpp lines
148-165): dedup check, threshold-triggered cleanup, capacity check,
append. Returns the outcome together with the new archive. -/
def insertSignal (stored : List RFSignal) (c : RFSignal) : InsertOutcome × List RFSignal :=
  if isDuplicate stored c then (.Duplicate, stored)
  else if (insertAfterCleanup stored).length < MAX_SIGNALS then
    (.Stored ((insertAfterCleanup stored).length + 1), insertAfterCleanup stored ++ [c])
  else (.StorageFull, insertAfterCleanup stored)

/-- The global state touched by the capture pipeline (main.cpp lines
27-31, 44). -/
structure CaptureState where
  archive : List RFSignal
  signalCount : Nat
  lastSignalTime : Nat
  buzzerEnabled : Bool
  ledEnabled : Bool
  deriving DecidableEq, Repr

/-- One run of `handleReceivedSignal`: the new state plus the observable
effects (insert outcome, whether the buzzer tone and the LED flash
were triggered). -/
structure CaptureResult where
  state : CaptureState
  outcome : Option InsertOutcome
  buzzerFired : Bool
  ledFired : Bool
  deriving DecidableEq, Repr

/-- `void handleReceivedSignal()` (main.cpp lines 124-179), with the
decoded reading `(value, bitLength, protocol)` and the current
`millis()` value passed as arguments. Note that the feedback calls
(lines 168-173) and the `lastSignalTime` update (line 175) sit inside
the `value != 0` block but outside the dedup/capacity branches, and
that `signalCount` is incremented (line 144) before the dedup check. -/
def handleReceivedSignal (st : CaptureState) (value bitLength protocol now : Nat) :
    CaptureResult :=
  if value ≠ 0 then
    let c : RFSignal :=
      { name := "Signal_" ++ toString st.signalCount, value := value,
        bitLength := bitLength, protocol := protocol, timestamp := now,
        isFavorite := false }
    let r := insertSignal st.archive c
    { state :=
        { archive := r.2, signalCount := st.signalCount + 1, lastSignalTime := now,
          buzzerEnabled := st.buzzerEnabled, ledEnabled := st.ledEnabled },
      outcome := some r.1, buzzerFired := st.buzzerEnabled, ledFired := st.ledEnabled }
  else
    { state := st, outcome := none, buzzerFired := false, ledFired := false }

/-- `2^32`, the modulus of `unsigned long` arithmetic on the target. -/
def U32 : Nat := 4294967296

/-- The `/api/cleanup/old` handler body (main.cpp lines 485-498):
`cutoffTime = millis() - maxAgeMs` in 32-bit unsigned arithmetic, then
erase every non-favorite with `timestamp < cutoffTime`. Returns the
surviving list and the removed count. -/
def purgeOlderThan (stored : List RFSignal) (now maxAgeMs : Nat) : List RFSignal × Nat :=
  let cutoff := (now % U32 + (U32 - maxAgeMs % U32)) % U32
  let kept := stored.filter fun s => s.isFavorite || !decide (s.timestamp < cutoff)
  (kept, stored.length - kept.length)

/-- The `/api/signals` DELETE handler (main.cpp lines 417-430): erase at
the positional id after the range check. -/
def deleteSignal (stored : List RFSignal) (id : Nat) : List RFSignal :=
  if id < stored.length then stored.eraseIdx id else stored

/-- The `/api/signals/rename` handler (main.cpp lines 432-446). -/
def renameSignal (stored : List RFSignal) (id : Nat) (newName : String) : List RFSignal :=
  match stored[id]? with
  | some s => stored.set id { s with name := newName }
  | none => stored

/-- The `/api/signals/favorite` handler (main.cpp lines 448-462). -/
def setFavoriteSignal (stored : List RFSignal) (id : Nat) (fav : Bool) : List RFSignal :=
  match stored[id]? with
  | some s => stored.set id { s with isFavorite := fav }
  | none => stored

/-- The `/api/clear` handler (main.cpp lines 464-469): empty archive. -/
def clearAll : List RFSignal := []

/-- The slice of the Preferences key-value store read and written by
`loadStoredSignals`/`saveStoredSignals` (main.cpp lines 285-324):
`signalCount`, `nextId`, and the per-index `sig{i}_*` keys, each with
the default returned by the corresponding getter when absent. -/
structure PrefStore where
  signalCount : Int
  nextId : Int
  names : Nat → String
  vals : Nat → Nat
  bits : Nat → Nat
  protos : Nat → Nat
  times : Nat → Nat
  favs : Nat → Bool

/-- Field defaults of the Preferences getters (main.cpp lines 294-299). -/
def defaultSignal : RFSignal :=
  { name := "", value := 0, bitLength := 0, protocol := 0, timestamp := 0,
    isFavorite := false }

/-- `void saveStoredSignals()` (main.cpp lines 309-324): write
`signalCount`, `nextId` and the per-index keys for indices
`0 .. size-1`; keys beyond the current size keep their old values. -/
def saveStoredSignals (st : PrefStore) (stored : List RFSignal) (counter : Nat) : PrefStore :=
  { signalCount := (stored.length : Int)
    nextId := (counter : Int)
    names := fun i => if i < stored.length then (stored.getD i defaultSignal).name else st.names i
    vals := fun i => if i < stored.length then (stored.getD i defaultSignal).value else st.vals i
    bits := fun i =>
      if i < stored.length then (stored.getD i defaultSignal).bitLength else st.bits i
    protos := fun i =>
      if i < stored.length then (stored.getD i defaultSignal).protocol else st.protos i
    times := fun i =>
      if i < stored.length then (stored.getD i defaultSignal).timestamp else st.times i
    favs := fun i =>
      if i < stored.length then (stored.getD i defaultSignal).isFavorite else st.favs i }

/-- The signal assembled from the `sig{i}_*` keys of the store
(main.cpp lines 291-299). -/
def storeSignal (st : PrefStore) (i : Nat) : RFSignal :=
  { name := st.names i, value := st.vals i, bitLength := st.bits i,
    protocol := st.protos i, timestamp := st.times i, isFavorite := st.favs i }

/-- `void loadStoredSignals()` (main.cpp lines 285-307): read
`signalCount` entries, keeping only those with a nonzero `value`,
and read back the name counter `nextId`. -/
def loadStoredSignals (st : PrefStore) : List RFSignal × Nat :=
  ((List.range st.signalCount.toNat).filterMap fun i =>
      if (storeSignal st i).value ≠ 0 then some (storeSignal st i) else none,
    st.nextId.toNat)

/-- Archive states reachable from boot (empty or rehydrated) by the
program's mutating operations. The capture path only presents signals
with `value != 0` (main.cpp line 129). -/
inductive Reachable : List RFSignal → Prop where
  | empty : Reachable []
  | load (st : PrefStore) : Reachable (loadStoredSignals st).1
  | capture {a} (c : RFSignal) : Reachable a → c.value ≠ 0 → Reachable (insertSignal a c).2
  | del {a} (id : Nat) : Reachable a → Reachable (deleteSignal a id)
  | rename {a} (id : Nat) (n : String) : Reachable a → Reachable (renameSignal a id n)
  | favorite {a} (id : Nat) (b : Bool) : Reachable a → Reachable (setFavoriteSignal a id b)
  | clear {a} : Reachable a → Reachable clearAll
  | cleanup {a} : Reachable a → Reachable (performAutoCleanup a)
  | purge {a} (now maxAgeMs : Nat) : Reachable a → Reachable (purgeOlderThan a now maxAgeMs).1

/-- A plain distinct non-favorite signal used in concrete scenarios. -/
def mkPlain (i : Nat) : RFSignal :=
  { name := "", value := i + 1, bitLength := 24, protocol := 1, timestamp := i,
    isFavorite := false }

/-- 950 distinct non-favorite signals (timestamps `0..949`). -/
def archive950 : List RFSignal := (List.range 950).map mkPlain

/-- 201 distinct non-favorite signals (timestamps `0..200`). -/
def archive201 : List RFSignal := (List.range 201).map mkPlain

/-- A favorite signal; the timestamps of indices 0 and 1 are swapped so
the archive is not already in sorted order. -/
def mkFav (i : Nat) : RFSignal :=
  { name := "", value := i + 1, bitLength := 24, protocol := 1,
    timestamp := if i = 0 then 1 else if i = 1 then 0 else i, isFavorite := true }

/-- 1000 favorite signals, not sorted by timestamp. -/
def archive1000fav : List RFSignal := (List.range 1000).map mkFav

/-! ### Helper lemmas about the cleanup comparator and the erase loop -/

/-- `cleanupLE a b` holds iff `a` is a non-favorite and `b` a favorite,
or both are in the same favorite class and `a` is not newer than `b`. -/
theorem cleanupLE_iff (a b : RFSignal) :
    cleanupLE a b ↔
      (a.isFavorite = false ∧ b.isFavorite = true) ∨
        (a.isFavorite = b.isFavorite ∧ a.timestamp ≤ b.timestamp) := by
  cases ha : a.isFavorite <;> cases hb : b.isFavorite <;>
    simp [cleanupLE, cleanupLT, ha, hb, Nat.not_lt]

instance : IsTotal RFSignal cleanupLE := by
  constructor
  intro a b
  rw [cleanupLE_iff, cleanupLE_iff]
  cases ha : a.isFavorite <;> cases hb : b.isFavorite <;> simp [ha, hb] <;> omega

instance : IsTrans RFSignal cleanupLE := by
  constructor
  intro a b c hab hbc
  rw [cleanupLE_iff] at hab hbc ⊢
  cases ha : a.isFavorite <;> cases hb : b.isFavorite <;> cases hc : c.isFavorite <;>
    simp_all <;> omega

theorem sortSignals_perm (a : List RFSignal) : (sortSignals a).Perm a :=
  List.perm_insertionSort cleanupLE a

theorem sortSignals_sorted (a : List RFSignal) : (sortSignals a).Sorted cleanupLE :=
  List.sorted_insertionSort cleanupLE a

/-- A `cleanupLE`-sorted list is its non-favorites followed by its
favorites. -/
theorem sorted_split {l : List RFSignal} (h : l.Sorted cleanupLE) :
    l = (l.filter fun s => !s.isFavorite) ++ (l.filter fun s => s.isFavorite) := by
  induction l with
  | nil => simp
  | cons x xs ih =>
    rw [List.sorted_cons] at h
    cases hfx : x.isFavorite
    · simpa [List.filter_cons, hfx] using ih h.2
    · have hall : ∀ b ∈ xs, b.isFavorite = true := by
        intro b hb
        have hx := (cleanupLE_iff x b).mp (h.1 b hb)
        rcases hx with ⟨h1, _⟩ | ⟨h1, _⟩
        · rw [hfx] at h1; cases h1
        · rw [← h1, hfx]
      have h1 : (x :: xs).filter (fun s => !s.isFavorite) = [] := by
        rw [List.filter_eq_nil_iff]
        intro b hb
        rcases List.mem_cons.mp hb with rfl | hb
        · simp [hfx]
        · simp [hall b hb]
      have h2 : (x :: xs).filter (fun s => s.isFavorite) = x :: xs := by
        rw [List.filter_eq_self]
        intro b hb
        rcases List.mem_cons.mp hb with rfl | hb
        · simp [hfx]
        · simp [hall b hb]
      rw [h1, h2, List.nil_append]

theorem removeOldest_all_fav {l : List RFSignal} (h : ∀ x ∈ l, x.isFavorite = true)
    (n : Nat) : removeOldest l n = l := by
  induction l generalizing n with
  | nil => cases n <;> rfl
  | cons s rest ih =>
    cases n with
    | zero => rfl
    | succ m =>
      have hs : s.isFavorite = true := h s (List.mem_cons_self s rest)
      simp [removeOldest, hs, ih (fun x hx => h x (List.mem_cons_of_mem s hx))]

/-- On a list of non-favorites followed by favorites, the erase loop
drops the first `n` non-favorites and keeps every favorite. -/
theorem removeOldest_append {A B : List RFSignal} (hA : ∀ x ∈ A, x.isFavorite = false)
    (hB : ∀ x ∈ B, x.isFavorite = true) (n : Nat) :
    removeOldest (A ++ B) n = A.drop n ++ B := by
  induction A generalizing n with
  | nil =>
    cases n with
    | zero => simp [removeOldest_all_fav hB]
    | succ m => simp [removeOldest_all_fav hB]
  | cons a A ih =>
    cases n with
    | zero => rfl
    | succ m =>
      have ha : a.isFavorite = false := hA a (List.mem_cons_self a A)
      simp [removeOldest, ha, ih (fun x hx => hA x (List.mem_cons_of_mem a hx)) m]

theorem removeOldest_sublist (l : List RFSignal) (n : Nat) : (removeOldest l n).Sublist l := by
  induction l generalizing n with
  | nil => simp [removeOldest]
  | cons s rest ih =>
    cases n with
    | zero => simp [removeOldest]
    | succ m =>
      cases hf : s.isFavorite
      · simpa [removeOldest, hf] using (ih m).cons s
      · simpa [removeOldest, hf] using (ih (m + 1)).cons₂ s

/-- Structure of `performAutoCleanup`: the surviving non-favorites are
the sorted non-favorites minus their first `signalsToRemove` (oldest)
elements, followed by all favorites in sorted order. -/
theorem performAutoCleanup_eq (a : List RFSignal) :
    performAutoCleanup a =
      ((sortSignals a).filter fun s => !s.isFavorite).drop signalsToRemove ++
        ((sortSignals a).filter fun s => s.isFavorite) := by
  have hsplit := sorted_split (sortSignals_sorted a)
  have hA : ∀ x ∈ (sortSignals a).filter (fun s => !s.isFavorite), x.isFavorite = false := by
    intro x hx
    simpa using (List.mem_filter.mp hx).2
  have hB : ∀ x ∈ (sortSignals a).filter (fun s => s.isFavorite), x.isFavorite = true := by
    intro x hx
    simpa using (List.mem_filter.mp hx).2
  calc performAutoCleanup a
      = removeOldest (sortSignals a) signalsToRemove := rfl
    _ = removeOldest
          (((sortSignals a).filter fun s => !s.isFavorite) ++
            ((sortSignals a).filter fun s => s.isFavorite)) signalsToRemove := by
        rw [← hsplit]
    _ = _ := removeOldest_append hA hB _

theorem mem_performAutoCleanup {x : RFSignal} {a : List RFSignal}
    (h : x ∈ performAutoCleanup a) : x ∈ a :=
  (sortSignals_perm a).mem_iff.mp
    (((removeOldest_sublist (sortSignals a) signalsToRemove)).mem h)

theorem performAutoCleanup_length (a : List RFSignal) :
    (performAutoCleanup a).length =
      a.length - min signalsToRemove (a.filter fun s => !s.isFavorite).length := by
  have hNf : ((sortSignals a).filter fun s => !s.isFavorite).length =
      (a.filter fun s => !s.isFavorite).length :=
    ((sortSignals_perm a).filter _).length_eq
  have hFv : ((sortSignals a).filter fun s => s.isFavorite).length =
      (a.filter fun s => s.isFavorite).length :=
    ((sortSignals_perm a).filter _).length_eq
  have hsum : a.length =
      (a.filter fun s => !s.isFavorite).length + (a.filter fun s => s.isFavorite).length := by
    have hlen := congrArg List.length (sorted_split (sortSignals_sorted a))
    rw [List.length_append, hNf, hFv, (sortSignals_perm a).length_eq] at hlen
    exact hlen
  have hmain := congrArg List.length (performAutoCleanup_eq a)
  rw [List.length_append, List.length_drop, hNf, hFv] at hmain
  omega

theorem performAutoCleanup_filter_nonfav (a : List RFSignal) :
    ((performAutoCleanup a).filter fun s => !s.isFavorite) =
      ((sortSignals a).filter fun s => !s.isFavorite).drop signalsToRemove := by
  rw [performAutoCleanup_eq, List.filter_append]
  have h1 : (((sortSignals a).filter fun s => !s.isFavorite).drop signalsToRemove).filter
      (fun s => !s.isFavorite) =
      ((sortSignals a).filter fun s => !s.isFavorite).drop signalsToRemove := by
    rw [List.filter_eq_self]
    intro x hx
    exact (List.mem_filter.mp (List.mem_of_mem_drop hx)).2
  have h2 : (((sortSignals a).filter fun s => s.isFavorite).filter
      fun s => !s.isFavorite) = [] := by
    rw [List.filter_eq_nil_iff]
    intro x hx
    simp [(List.mem_filter.mp hx).2]
  rw [h1, h2, List.append_nil]

theorem performAutoCleanup_filter_fav (a : List RFSignal) :
    ((performAutoCleanup a).filter fun s => s.isFavorite) =
      (sortSignals a).filter fun s => s.isFavorite := by
  rw [performAutoCleanup_eq, List.filter_append]
  have h1 : (((sortSignals a).filter fun s => !s.isFavorite).drop signalsToRemove).filter
      (fun s => s.isFavorite) = [] := by
    rw [List.filter_eq_nil_iff]
    intro x hx
    have := (List.mem_filter.mp (List.mem_of_mem_drop hx)).2
    simp_all
  have h2 : (((sortSignals a).filter fun s => s.isFavorite).filter
      fun s => s.isFavorite) = (sortSignals a).filter fun s => s.isFavorite := by
    rw [List.filter_eq_self]
    intro x hx
    exact (List.mem_filter.mp hx).2
  rw [h1, h2, List.nil_append]

theorem performAutoCleanup_nonfav_length (a : List RFSignal) :
    ((performAutoCleanup a).filter fun s => !s.isFavorite).length =
      (a.filter fun s => !s.isFavorite).length - signalsToRemove := by
  rw [performAutoCleanup_filter_nonfav, List.length_drop,
    ((sortSignals_perm a).filter _).length_eq]

theorem performAutoCleanup_fav_perm (a : List RFSignal) :
    ((performAutoCleanup a).filter fun s => s.isFavorite).Perm
      (a.filter fun s => s.isFavorite) := by
  rw [performAutoCleanup_filter_fav]
  exact (sortSignals_perm a).filter _

theorem sameTriple_comm (x y : RFSignal) : sameTriple x y = sameTriple y x := by
  rw [Bool.eq_iff_iff]
  simp only [sameTriple, Bool.and_eq_true, beq_iff_eq]
  constructor
  · intro h
    exact ⟨⟨h.1.1.symm, h.1.2.symm⟩, h.2.symm⟩
  · intro h
    exact ⟨⟨h.1.1.symm, h.1.2.symm⟩, h.2.symm⟩

theorem mem_insertAfterCleanup {x : RFSignal} {a : List RFSignal}
    (h : x ∈ insertAfterCleanup a) : x ∈ a := by
  unfold insertAfterCleanup at h
  split at h
  · exact mem_performAutoCleanup h
  · exact h

theorem pairwise_insertAfterCleanup {R : RFSignal → RFSignal → Prop}
    (hS : ∀ {x y : RFSignal}, R x y → R y x) {a : List RFSignal} (h : a.Pairwise R) :
    (insertAfterCleanup a).Pairwise R := by
  unfold insertAfterCleanup
  split
  · exact (((sortSignals_perm a).pairwise_iff hS).mpr h).sublist (removeOldest_sublist _ _)
  · exact h

theorem mem_insertSignal {x : RFSignal} {a : List RFSignal} {c : RFSignal}
    (h : x ∈ (insertSignal a c).2) : x ∈ a ∨ x = c := by
  unfold insertSignal at h
  by_cases hd : isDuplicate a c = true
  · rw [if_pos hd] at h
    exact Or.inl h
  · rw [if_neg hd] at h
    by_cases hlt : (insertAfterCleanup a).length < MAX_SIGNALS
    · rw [if_pos hlt] at h
      rcases List.mem_append.mp h with h1 | h1
      · exact Or.inl (mem_insertAfterCleanup h1)
      · exact Or.inr (List.mem_singleton.mp h1)
    · rw [if_neg hlt] at h
      exact Or.inl (mem_insertAfterCleanup h)

/-! ### Claim theorems -/

/-- C1: inserting a candidate whose `(value, bitLength, protocol)` triple
already occurs in the archive returns `Duplicate` and leaves the archive
unchanged; consequently an insert never creates a second copy of a
triple in a triple-unique archive. -/
theorem c1_duplicate_insert :
    (∀ (a : List RFSignal) (c : RFSignal),
        (∃ s ∈ a, sameTriple s c = true) → insertSignal a c = (.Duplicate, a)) ∧
      ∀ (a : List RFSignal) (c : RFSignal),
        a.Pairwise (fun x y => sameTriple x y = false) →
          (insertSignal a c).2.Pairwise fun x y => sameTriple x y = false := by
  constructor
  · intro a c h
    have hd : isDuplicate a c = true := List.any_eq_true.mpr (by simpa using h)
    unfold insertSignal
    rw [if_pos hd]
  · intro a c hpw
    have hSymm : ∀ {x y : RFSignal}, sameTriple x y = false → sameTriple y x = false := by
      intro x y h
      rw [sameTriple_comm]
      exact h
    unfold insertSignal
    by_cases hd : isDuplicate a c = true
    · rw [if_pos hd]
      exact hpw
    · rw [if_neg hd]
      have hfresh : ∀ x ∈ a, sameTriple x c = false := by
        intro x hx
        have := List.any_eq_false.mp (Bool.not_eq_true _ ▸ hd : isDuplicate a c = false)
        exact Bool.not_eq_true _ ▸ this x hx
      have hiac : (insertAfterCleanup a).Pairwise fun x y => sameTriple x y = false :=
        pairwise_insertAfterCleanup hSymm hpw
      by_cases hlt : (insertAfterCleanup a).length < MAX_SIGNALS
      · rw [if_pos hlt]
        show (insertAfterCleanup a ++ [c]).Pairwise fun x y => sameTriple x y = false
        refine List.pairwise_append.mpr ⟨hiac, by simp, ?_⟩
        intro x hx y hy
        rw [List.mem_singleton.mp hy]
        exact hfresh x (mem_insertAfterCleanup hx)
      · rw [if_neg hlt]
        exact hiac

/-- A favorite signal carrying the same triple as `mkPlain 0` but a
different name, timestamp and favorite flag. -/
def dupSignal : RFSignal :=
  { name := "other", value := 1, bitLength := 24, protocol := 1, timestamp := 42,
    isFavorite := true }

/-- Witness for C1 at a concrete archive. -/
theorem c1_witness :
    insertSignal [mkPlain 0] dupSignal = (.Duplicate, [mkPlain 0]) ∧
      (insertSignal [mkPlain 0] (mkPlain 5)).2.Pairwise
        (fun x y => sameTriple x y = false) := by
  constructor
  · exact c1_duplicate_insert.1 [mkPlain 0] dupSignal ⟨mkPlain 0, by simp, by decide⟩
  · exact c1_duplicate_insert.2 [mkPlain 0] (mkPlain 5) (by simp)

/-- C3 (amended): the eviction quota is the constant
`signalsToRemove = 200`, not re-derived from the current non-favorite
count; a second `performAutoCleanup` with no intervening inserts removes
a further `min 200 (N - 200)` signals, where `N` is the original
non-favorite count, hence removes 0 exactly when `N ≤ 200`. -/
theorem c3_second_cleanup (a : List RFSignal) :
    (performAutoCleanup a).length - (performAutoCleanup (performAutoCleanup a)).length =
        min signalsToRemove
          ((a.filter fun s => !s.isFavorite).length - signalsToRemove) ∧
      ((performAutoCleanup (performAutoCleanup a)).length = (performAutoCleanup a).length ↔
        (a.filter fun s => !s.isFavorite).length ≤ signalsToRemove) := by
  have h1 := performAutoCleanup_length a
  have h2 := performAutoCleanup_length (performAutoCleanup a)
  have h3 := performAutoCleanup_nonfav_length a
  have h4 : (a.filter fun s => !s.isFavorite).length ≤ a.length := List.length_filter_le _ _
  have h5 : ((performAutoCleanup a).filter fun s => !s.isFavorite).length ≤
      (performAutoCleanup a).length := List.length_filter_le _ _
  rw [h3] at h2
  have h6 : signalsToRemove = 200 := rfl
  omega

/-- C3 counterexample: on 201 non-favorites the first cleanup removes
200 (quota satisfied), yet the second cleanup removes one more signal
instead of 0. -/
theorem c3_counterexample :
    (performAutoCleanup archive201).length = 1 ∧
      (performAutoCleanup (performAutoCleanup archive201)).length = 0 := by decide

/-- C5 (amended): the buzzer tone and LED flash are triggered for every
nonzero decoded value — whatever the insert outcome, `Duplicate` and
`StorageFull` included — gated only by their enabled flags; a zero-value
reading triggers neither. -/
theorem c5_feedback (st : CaptureState) (value bitLength protocol now : Nat) :
    (handleReceivedSignal st value bitLength protocol now).buzzerFired =
        (st.buzzerEnabled && !(value == 0)) ∧
      (handleReceivedSignal st value bitLength protocol now).ledFired =
        (st.ledEnabled && !(value == 0)) := by
  by_cases h : value = 0 <;> simp [handleReceivedSignal, h]

/-- A capture state whose archive already holds the triple of
`mkPlain 0`, with feedback enabled. -/
def capDupState : CaptureState :=
  { archive := [mkPlain 0], signalCount := 3, lastSignalTime := 0,
    buzzerEnabled := true, ledEnabled := true }

/-- C5 counterexample: a duplicate decode still fires the buzzer and the
LED. -/
theorem c5_counterexample :
    (handleReceivedSignal capDupState 1 24 1 99).outcome = some .Duplicate ∧
      (handleReceivedSignal capDupState 1 24 1 99).buzzerFired = true ∧
      (handleReceivedSignal capDupState 1 24 1 99).ledFired = true := by decide

/-- C9 (amended): `lastSignalTime` is updated on every nonzero decoded
value — on `Stored`, `Duplicate` and `StorageFull` alike — and left
unchanged exactly on zero-value readings. -/
theorem c9_lastSignal (st : CaptureState) (value bitLength protocol now : Nat) :
    (handleReceivedSignal st value bitLength protocol now).state.lastSignalTime =
      if value = 0 then st.lastSignalTime else now := by
  by_cases h : value = 0 <;> simp [handleReceivedSignal, h]

/-- A capture state over an archive of 1000 favorites (the only shape on
which an insert can return `StorageFull`). -/
def capFullState : CaptureState :=
  { archive := archive1000fav, signalCount := 0, lastSignalTime := 0,
    buzzerEnabled := false, ledEnabled := false }

/-- C9 counterexample: a `StorageFull` decode still updates
`lastSignalTime`. -/
theorem c9_counterexample :
    (handleReceivedSignal capFullState 5000 24 1 777).outcome = some .StorageFull ∧
      (handleReceivedSignal capFullState 5000 24 1 777).state.lastSignalTime = 777 := by
  decide

/-- C10: after every `performAutoCleanup` call the archive consists of
the surviving non-favorites in ascending `capturedAt` (timestamp) order
followed by all favorites (themselves in ascending timestamp order), so
positional display ids are reassigned by the sort. -/
theorem c10_cleanup_order (a : List RFSignal) :
    ∃ A B, performAutoCleanup a = A ++ B ∧
      (∀ x ∈ A, x.isFavorite = false) ∧ (∀ y ∈ B, y.isFavorite = true) ∧
      A.Sorted (fun x y => x.timestamp ≤ y.timestamp) ∧
      B.Sorted fun x y => x.timestamp ≤ y.timestamp := by
  refine ⟨((sortSignals a).filter fun s => !s.isFavorite).drop signalsToRemove,
    (sortSignals a).filter fun s => s.isFavorite, performAutoCleanup_eq a, ?_, ?_, ?_, ?_⟩
  · intro x hx
    simpa using (List.mem_filter.mp (List.mem_of_mem_drop hx)).2
  · intro y hy
    simpa using (List.mem_filter.mp hy).2
  · have hpw : (((sortSignals a).filter fun s => !s.isFavorite).drop
        signalsToRemove).Pairwise cleanupLE :=
      ((sortSignals_sorted a).sublist (List.filter_sublist _)).sublist
        (List.drop_sublist _ _)
    refine hpw.imp_of_mem ?_
    intro x y hx hy hxy
    have hxf := (List.mem_filter.mp (List.mem_of_mem_drop hx)).2
    have hyf := (List.mem_filter.mp (List.mem_of_mem_drop hy)).2
    rcases (cleanupLE_iff x y).mp hxy with ⟨_, h2⟩ | ⟨_, h2⟩
    · simp_all
    · exact h2
  · have hpw : ((sortSignals a).filter fun s => s.isFavorite).Pairwise cleanupLE :=
      (sortSignals_sorted a).sublist (List.filter_sublist _)
    refine hpw.imp_of_mem ?_
    intro x y hx hy hxy
    have hxf := (List.mem_filter.mp hx).2
    have hyf := (List.mem_filter.mp hy).2
    rcases (cleanupLE_iff x y).mp hxy with ⟨h1, _⟩ | ⟨_, h2⟩
    · simp_all
    · exact h2

/-- C2 (amended): from an archive of exactly 950 non-favorite signals,
inserting a fresh 951st signal triggers eviction of 200 signals, leaving
750 before the append; the insert completes with outcome `Stored 751`
and final size 751. -/
theorem c2_watermark_scenario (a : List RFSignal) (c : RFSignal)
    (h950 : a.length = 950) (hnf : ∀ s ∈ a, s.isFavorite = false)
    (hfresh : isDuplicate a c = false) :
    (performAutoCleanup a).length = 750 ∧
      insertSignal a c = (.Stored 751, performAutoCleanup a ++ [c]) ∧
      (insertSignal a c).2.length = 751 := by
  have hfilter : (a.filter fun s => !s.isFavorite) = a := by
    rw [List.filter_eq_self]
    intro s hs
    simp [hnf s hs]
  have hlen : (performAutoCleanup a).length = 750 := by
    rw [performAutoCleanup_length, hfilter, h950]
    decide
  have hiace : insertAfterCleanup a = performAutoCleanup a := by
    unfold insertAfterCleanup
    rw [if_pos (by simp [AUTO_CLEANUP_THRESHOLD, h950])]
  have heq : insertSignal a c = (.Stored 751, performAutoCleanup a ++ [c]) := by
    unfold insertSignal
    rw [if_neg (by simp [hfresh]), hiace, if_pos (by rw [hlen]; decide), hlen]
  refine ⟨hlen, heq, ?_⟩
  rw [heq]
  simp [hlen]

/-- C2 counterexample: on a concrete archive of 950 distinct
non-favorites, the 951st insert yields size 750 after eviction and
outcome `Stored 751` with final size 751 — not the claimed 751/752. -/
theorem c2_counterexample :
    archive950.length = 950 ∧
      (performAutoCleanup archive950).length = 750 ∧
      (insertSignal archive950 (mkPlain 5000)).1 = .Stored 751 ∧
      (insertSignal archive950 (mkPlain 5000)).1 ≠ .Stored 752 ∧
      (insertSignal archive950 (mkPlain 5000)).2.length ≠ 752 := by decide

/-- Witness for C2 (amended) at the concrete 950-signal archive. -/
theorem c2_witness :
    (performAutoCleanup archive950).length = 750 ∧
      insertSignal archive950 (mkPlain 5000) =
        (.Stored 751, performAutoCleanup archive950 ++ [mkPlain 5000]) ∧
      (insertSignal archive950 (mkPlain 5000)).2.length = 751 :=
  c2_watermark_scenario archive950 (mkPlain 5000) (by decide)
    (fun s hs => by
      have h := List.all_eq_true.mp
        (by decide : archive950.all (fun t => !t.isFavorite) = true) s hs
      simpa using h)
    (by decide)

/-- C4: on an archive whose non-favorites have pairwise distinct
timestamps, `performAutoCleanup` removes exactly
`min signalsToRemove N` signals (`N` the non-favorite count, so all of
them when `N < 200`), never removes a favorite (the favorite multiset is
preserved), and every removed non-favorite is strictly older than every
surviving non-favorite. -/
theorem c4_evict_oldest (a : List RFSignal)
    (hdist : (a.filter fun s => !s.isFavorite).Pairwise
      fun x y => x.timestamp ≠ y.timestamp) :
    (a.length - (performAutoCleanup a).length =
        min signalsToRemove (a.filter fun s => !s.isFavorite).length) ∧
      ((performAutoCleanup a).filter fun s => s.isFavorite).Perm
        (a.filter fun s => s.isFavorite) ∧
      ∀ x ∈ a, x.isFavorite = false → x ∉ performAutoCleanup a →
        ∀ y ∈ performAutoCleanup a, y.isFavorite = false →
          x.timestamp < y.timestamp := by
  refine ⟨?_, performAutoCleanup_fav_perm a, ?_⟩
  · have h1 := performAutoCleanup_length a
    have h4 : (a.filter fun s => !s.isFavorite).length ≤ a.length :=
      List.length_filter_le _ _
    omega
  · intro x hxa hxnf hxout y hy hynf
    have hxA : x ∈ (sortSignals a).filter fun s => !s.isFavorite :=
      List.mem_filter.mpr ⟨(sortSignals_perm a).mem_iff.mpr hxa, by simp [hxnf]⟩
    have hxdrop : x ∉ ((sortSignals a).filter fun s => !s.isFavorite).drop
        signalsToRemove := by
      intro hc
      exact hxout (by rw [performAutoCleanup_eq a]; exact List.mem_append_left _ hc)
    have hxA2 : x ∈ ((sortSignals a).filter fun s => !s.isFavorite).take
          signalsToRemove ++
        ((sortSignals a).filter fun s => !s.isFavorite).drop signalsToRemove := by
      rw [List.take_append_drop]
      exact hxA
    have hxtake : x ∈ ((sortSignals a).filter fun s => !s.isFavorite).take
        signalsToRemove := by
      rcases List.mem_append.mp hxA2 with h | h
      · exact h
      · exact absurd h hxdrop
    have hyA : y ∈ ((sortSignals a).filter fun s => !s.isFavorite).drop
        signalsToRemove := by
      have hy2 : y ∈ ((sortSignals a).filter fun s => !s.isFavorite).drop
            signalsToRemove ++ ((sortSignals a).filter fun s => s.isFavorite) := by
        rw [← performAutoCleanup_eq a]
        exact hy
      rcases List.mem_append.mp hy2 with h | h
      · exact h
      · have hf := (List.mem_filter.mp h).2
        simp [hynf] at hf
    have hpw : ((sortSignals a).filter fun s => !s.isFavorite).Pairwise cleanupLE :=
      (sortSignals_sorted a).sublist (List.filter_sublist _)
    have hpw2 : (((sortSignals a).filter fun s => !s.isFavorite).take
          signalsToRemove ++
        ((sortSignals a).filter fun s => !s.isFavorite).drop
          signalsToRemove).Pairwise cleanupLE := by
      rw [List.take_append_drop]
      exact hpw
    have hple : cleanupLE x y := (List.pairwise_append.mp hpw2).2.2 x hxtake y hyA
    have hle : x.timestamp ≤ y.timestamp := by
      rcases (cleanupLE_iff x y).mp hple with ⟨_, h2⟩ | ⟨_, h2⟩
      · rw [h2] at hynf; cases hynf
      · exact h2
    have hne : x.timestamp ≠ y.timestamp := by
      have hxf : x ∈ a.filter fun s => !s.isFavorite :=
        List.mem_filter.mpr ⟨hxa, by simp [hxnf]⟩
      have hyf : y ∈ a.filter fun s => !s.isFavorite :=
        List.mem_filter.mpr ⟨mem_performAutoCleanup hy, by simp [hynf]⟩
      have hxy : x ≠ y := fun h => hxout (h ▸ hy)
      have hsym : Symmetric fun u v : RFSignal => u.timestamp ≠ v.timestamp := by
        intro u v h e
        exact h e.symm
      exact hdist.forall hsym hxf hyf hxy
    omega

/-- A favorite signal with timestamp between the two non-favorites of
`c4Archive`. -/
def favSignal : RFSignal :=
  { name := "f", value := 500, bitLength := 24, protocol := 1, timestamp := 50,
    isFavorite := true }

/-- A small archive mixing favorites and non-favorites, out of timestamp
order. -/
def c4Archive : List RFSignal := [mkPlain 2, favSignal, mkPlain 0]

/-- Witness for C4 at a concrete mixed archive. -/
theorem c4_witness :
    ((c4Archive.filter fun s => !s.isFavorite).Pairwise
        fun x y => x.timestamp ≠ y.timestamp) ∧
      c4Archive.length - (performAutoCleanup c4Archive).length =
        min signalsToRemove (c4Archive.filter fun s => !s.isFavorite).length :=
  ⟨by decide, (c4_evict_oldest c4Archive (by decide)).1⟩

/-- A non-favorite signal captured at uptime 500000 ms. -/
def youngSignal : RFSignal :=
  { name := "s", value := 7, bitLength := 24, protocol := 1, timestamp := 500000,
    isFavorite := false }

/-- C6 (code bug): with device uptime 1000000 ms (about 17 minutes) and
the default 7-day threshold (604800000 ms), the unsigned computation
`millis() - maxAgeMs` underflows modulo `2^32`, and the purge removes a
non-favorite signal whose age (500000 ms) does not exceed the threshold
— the claim is right about the intent and the code wrong. -/
theorem c6_purge_underflow :
    purgeOlderThan [youngSignal] 1000000 604800000 = (([] : List RFSignal), 1) ∧
      1000000 - youngSignal.timestamp ≤ 604800000 ∧
      youngSignal.isFavorite = false := by decide

theorem performAutoCleanup_length_le (a : List RFSignal) :
    (performAutoCleanup a).length ≤ a.length := by
  rw [performAutoCleanup_length]
  omega

theorem insertAfterCleanup_length_le (a : List RFSignal) :
    (insertAfterCleanup a).length ≤ a.length := by
  unfold insertAfterCleanup
  split
  · exact performAutoCleanup_length_le a
  · exact Nat.le_refl _

/-- If the archive has no non-favorites, cleanup only reorders it. -/
theorem performAutoCleanup_perm_of_no_nonfav {a : List RFSignal}
    (h : (a.filter fun s => !s.isFavorite).length = 0) :
    (performAutoCleanup a).Perm a := by
  have hnil : ((sortSignals a).filter fun s => !s.isFavorite) = [] := by
    have hp := ((sortSignals_perm a).filter fun s => !s.isFavorite).length_eq
    rw [h] at hp
    exact List.length_eq_zero.mp hp
  have he : performAutoCleanup a = (sortSignals a).filter fun s => s.isFavorite := by
    rw [performAutoCleanup_eq, hnil]
    simp
  have hsp := sorted_split (sortSignals_sorted a)
  rw [hnil, List.nil_append] at hsp
  rw [he, ← hsp]
  exact sortSignals_perm a

/-- C7 (amended): every operation — insert (with its eviction and
capacity check), delete, purge, clear, cleanup, and rehydration of a
saved snapshot — preserves the invariant `size ≤ MAX_SIGNALS`; and an
insert that returns `StorageFull` adds and removes nothing: the
resulting archive is a permutation (the eviction sort's reordering) of
the previous one. -/
theorem c7_capacity_invariant :
    (∀ (a : List RFSignal) (c : RFSignal), a.length ≤ MAX_SIGNALS →
        (insertSignal a c).2.length ≤ MAX_SIGNALS) ∧
      (∀ (a : List RFSignal) (id : Nat), a.length ≤ MAX_SIGNALS →
        (deleteSignal a id).length ≤ MAX_SIGNALS) ∧
      (∀ (a : List RFSignal) (now maxAgeMs : Nat), a.length ≤ MAX_SIGNALS →
        (purgeOlderThan a now maxAgeMs).1.length ≤ MAX_SIGNALS) ∧
      clearAll.length ≤ MAX_SIGNALS ∧
      (∀ a : List RFSignal, a.length ≤ MAX_SIGNALS →
        (performAutoCleanup a).length ≤ MAX_SIGNALS) ∧
      (∀ (st : PrefStore) (a : List RFSignal) (cnt : Nat), a.length ≤ MAX_SIGNALS →
        (loadStoredSignals (saveStoredSignals st a cnt)).1.length ≤ MAX_SIGNALS) ∧
      ∀ (a : List RFSignal) (c : RFSignal), a.length ≤ MAX_SIGNALS →
        (insertSignal a c).1 = .StorageFull → (insertSignal a c).2.Perm a := by
  refine ⟨?_, ?_, ?_, ?_, ?_, ?_, ?_⟩
  · intro a c h
    unfold insertSignal
    by_cases hd : isDuplicate a c = true
    · rw [if_pos hd]
      exact h
    · rw [if_neg hd]
      by_cases hlt : (insertAfterCleanup a).length < MAX_SIGNALS
      · rw [if_pos hlt]
        show (insertAfterCleanup a ++ [c]).length ≤ MAX_SIGNALS
        rw [List.length_append]
        simp only [List.length_singleton]
        omega
      · rw [if_neg hlt]
        exact le_trans (insertAfterCleanup_length_le a) h
  · intro a id h
    unfold deleteSignal
    split
    · exact le_trans (List.eraseIdx_sublist a id).length_le h
    · exact h
  · intro a now maxAgeMs h
    exact le_trans (List.length_filter_le _ _) h
  · exact Nat.zero_le _
  · intro a h
    exact le_trans (performAutoCleanup_length_le a) h
  · intro st a cnt h
    have h1 : (loadStoredSignals (saveStoredSignals st a cnt)).1.length ≤ a.length := by
      unfold loadStoredSignals saveStoredSignals
      refine le_trans (List.length_filterMap_le _ _) ?_
      simp only [List.length_range]
      omega
    exact le_trans h1 h
  · intro a c h hsf
    unfold insertSignal at hsf ⊢
    by_cases hd : isDuplicate a c = true
    · rw [if_pos hd] at hsf
      exact InsertOutcome.noConfusion hsf
    · rw [if_neg hd] at hsf ⊢
      by_cases hlt : (insertAfterCleanup a).length < MAX_SIGNALS
      · rw [if_pos hlt] at hsf
        exact InsertOutcome.noConfusion hsf
      · rw [if_neg hlt]
        show (insertAfterCleanup a).Perm a
        by_cases ht : a.length ≥ AUTO_CLEANUP_THRESHOLD
        · have hiac : insertAfterCleanup a = performAutoCleanup a := by
            unfold insertAfterCleanup
            rw [if_pos ht]
          rw [hiac] at hlt ⊢
          have hN : (a.filter fun s => !s.isFavorite).length = 0 := by
            have hlen := performAutoCleanup_length a
            have hle := List.length_filter_le (fun s => !s.isFavorite) a
            have hge := Nat.not_lt.mp hlt
            have e1 : MAX_SIGNALS = 1000 := rfl
            have e2 : signalsToRemove = 200 := rfl
            omega
          exact performAutoCleanup_perm_of_no_nonfav hN
        · have hiac : insertAfterCleanup a = a := by
            unfold insertAfterCleanup
            rw [if_neg ht]
          rw [hiac]

/-- C7 counterexample: on an archive of 1000 favorites stored out of
timestamp order, an insert returns `StorageFull` but the archive is NOT
left unchanged — the eviction sort has reordered it. -/
theorem c7_counterexample :
    (insertSignal archive1000fav (mkPlain 5000)).1 = .StorageFull ∧
      (insertSignal archive1000fav (mkPlain 5000)).2 ≠ archive1000fav := by decide

/-- Witness for C7 (amended) at concrete archives. -/
theorem c7_witness :
    (insertSignal [mkPlain 0] (mkPlain 1)).2.length ≤ MAX_SIGNALS ∧
      (insertSignal archive1000fav (mkPlain 6000)).2.Perm archive1000fav := by
  constructor
  · exact c7_capacity_invariant.1 [mkPlain 0] (mkPlain 1) (by decide)
  · exact c7_capacity_invariant.2.2.2.2.2.2 archive1000fav (mkPlain 6000)
      (by decide) (by decide)

/-! ### Persistence round trip (C8) -/

theorem storeSignal_save (st : PrefStore) (a : List RFSignal) (cnt : Nat) (i : Nat) :
    storeSignal (saveStoredSignals st a cnt) i =
      if i < a.length then a.getD i defaultSignal else storeSignal st i := by
  by_cases hi : i < a.length <;> simp [storeSignal, saveStoredSignals, hi]

theorem filterMap_range_eq_map {n : Nat} {f : Nat → Option RFSignal}
    {g : Nat → RFSignal} (h : ∀ i < n, f i = some (g i)) :
    (List.range n).filterMap f = (List.range n).map g := by
  induction n with
  | zero => simp
  | succ m ih =>
    rw [List.range_succ, List.filterMap_append, List.map_append,
      ih fun i hi => h i (Nat.lt_succ_of_lt hi)]
    simp [h m (Nat.lt_succ_self m)]

theorem map_getD_range (a : List RFSignal) :
    ((List.range a.length).map fun i => a.getD i defaultSignal) = a := by
  apply List.ext_getElem
  · simp
  · intro i h1 h2
    simp [List.getD_eq_getElem?_getD, List.getElem?_eq_getElem h2]

/-- Saving rewrites the indexed keys for `0 .. size-1` and the count, so
a subsequent load reads back exactly the saved list (provided every
saved signal has a nonzero value, since load drops zero-value rows) and
the saved counter. -/
theorem load_save (st : PrefStore) (a : List RFSignal) (cnt : Nat)
    (h : ∀ s ∈ a, s.value ≠ 0) :
    loadStoredSignals (saveStoredSignals st a cnt) = (a, cnt) := by
  have hcount : (saveStoredSignals st a cnt).signalCount.toNat = a.length := by
    simp [saveStoredSignals]
  have h1 : (loadStoredSignals (saveStoredSignals st a cnt)).1 = a := by
    have hstep : (loadStoredSignals (saveStoredSignals st a cnt)).1 =
        (List.range a.length).map fun i => a.getD i defaultSignal := by
      refine filterMap_range_eq_map ?_
      intro i hi
      rw [hcount] at hi
      have hgd : a.getD i defaultSignal = a[i] := by
        simp [List.getD_eq_getElem?_getD, List.getElem?_eq_getElem hi]
      have hv : (a.getD i defaultSignal).value ≠ 0 := by
        rw [hgd]
        exact h _ (List.getElem?_mem (List.getElem?_eq_getElem hi))
      rw [storeSignal_save, if_pos hi, if_pos hv]
    rw [hstep, map_getD_range]
  have h2 : (loadStoredSignals (saveStoredSignals st a cnt)).2 = cnt := by
    simp [loadStoredSignals, saveStoredSignals]
  calc loadStoredSignals (saveStoredSignals st a cnt)
      = ((loadStoredSignals (saveStoredSignals st a cnt)).1,
        (loadStoredSignals (saveStoredSignals st a cnt)).2) := rfl
    _ = (a, cnt) := by rw [h1, h2]

/-- Every signal in a reachable archive has a nonzero value: the capture
path filters zero decodes and the loader filters zero-value rows. -/
theorem reachable_value_ne_zero {a : List RFSignal} (h : Reachable a) :
    ∀ s ∈ a, s.value ≠ 0 := by
  induction h with
  | empty =>
    intro s hs
    exact absurd hs (List.not_mem_nil s)
  | load st =>
    intro s hs
    rcases List.mem_filterMap.mp hs with ⟨i, _, hf⟩
    by_cases hv : (storeSignal st i).value ≠ 0
    · rw [if_pos hv] at hf
      injection hf with hf2
      rw [← hf2]
      exact hv
    · rw [if_neg hv] at hf
      exact Option.noConfusion hf
  | capture c hr hc ih =>
    intro s hs
    rcases mem_insertSignal hs with h1 | rfl
    · exact ih s h1
    · exact hc
  | del id hr ih =>
    intro s hs
    unfold deleteSignal at hs
    split at hs
    · exact ih s ((List.eraseIdx_sublist _ _).mem hs)
    · exact ih s hs
  | rename id n hr ih =>
    intro s hs
    unfold renameSignal at hs
    split at hs
    next t ht =>
      rcases List.mem_or_eq_of_mem_set hs with h1 | rfl
      · exact ih s h1
      · exact ih t (List.getElem?_mem ht)
    next ht => exact ih s hs
  | favorite id b hr ih =>
    intro s hs
    unfold setFavoriteSignal at hs
    split at hs
    next t ht =>
      rcases List.mem_or_eq_of_mem_set hs with h1 | rfl
      · exact ih s h1
      · exact ih t (List.getElem?_mem ht)
    next ht => exact ih s hs
  | clear hr ih =>
    intro s hs
    exact absurd hs (List.not_mem_nil s)
  | cleanup hr ih =>
    intro s hs
    exact ih s (mem_performAutoCleanup hs)
  | purge now maxAgeMs hr ih =>
    intro s hs
    exact ih s (List.mem_of_mem_filter hs)

/-- C8: for every archive state reachable by any sequence of mutating
operations (capture insert, delete, rename, favorite toggle, clear,
cleanup/eviction, age purge, starting from boot or a rehydrated store),
persisting a full snapshot and then reloading reproduces an identical
ordered list of signals with all fields equal, and the same counter. -/
theorem c8_round_trip (st : PrefStore) (a : List RFSignal) (cnt : Nat)
    (h : Reachable a) :
    loadStoredSignals (saveStoredSignals st a cnt) = (a, cnt) :=
  load_save st a cnt (reachable_value_ne_zero h)

/-- A store in which every key is absent (all getters return their
defaults). -/
def emptyStore : PrefStore :=
  { signalCount := 0, nextId := 0, names := fun _ => "", vals := fun _ => 0,
    bits := fun _ => 0, protos := fun _ => 0, times := fun _ => 0,
    favs := fun _ => false }

/-- Witness for C8 at a concrete reachable archive. -/
theorem c8_witness :
    loadStoredSignals (saveStoredSignals emptyStore [mkPlain 0] 1) =
      ([mkPlain 0], 1) := by
  have h0 : Reachable (insertSignal [] (mkPlain 0)).2 :=
    Reachable.capture (mkPlain 0) Reachable.empty (by decide)
  have he : (insertSignal [] (mkPlain 0)).2 = [mkPlain 0] := by decide
  exact c8_round_trip emptyStore [mkPlain 0] 1 (he ▸ h0)
